import Mathlib

/-!
Verification of the CLI interpreter design of this repository: the lexing
finite-state machine (`LexingFSM` transition graph), the recursive-descent
parser (`construct_ast` / `parse_pipeline` / `parse_command` flowcharts) and
the AST executor (`execute_ast` flowcharts, with and without pipelines).
The Rust data types (`WordPart`, `Token`, `Word`, `AstNode`, `RedirectKind`,
`SubstKind`) are transcribed directly; the algorithms are transcribed from
the state diagrams and flowcharts in the design documents.
-/

namespace Cli

/-- The single-quote character (written via its code point). -/
def sq : Char := Char.ofNat 39

/-- The double-quote character (written via its code point). -/
def dq : Char := Char.ofNat 34

/-- Identifier start: ASCII letter or underscore. -/
def isIdentStart (c : Char) : Bool := c.isAlpha || c = '_'

/-- Identifier continuation: ASCII letter, digit or underscore. -/
def isIdentChar (c : Char) : Bool := c.isAlphanum || c = '_'

/-- The five single-character operator tokens of the lexer. -/
def isOpChar (c : Char) : Bool := c = '|' || c = '=' || c = '/' || c = '<' || c = '>'

/-- `WordPart` from the design: literal text, command substitution `$(...)`
or parameter substitution with braces. -/
inductive WordPart where
  | literal (s : String)
  | cmdSubst (s : String)
  | paramSubst (s : String)
deriving DecidableEq, Repr

/-- `Token` from the design: a word (list of parts), the pipe operator,
equality, slash, input redirection `<` and output redirection `>`.
There is no append token: `>>` is two `RedirectRight` tokens. -/
inductive Token where
  | word (parts : List WordPart)
  | pipeOp
  | equal
  | slash
  | redirectLeft
  | redirectRight
deriving DecidableEq, Repr

/-- Operator character to its token (only called on `isOpChar` characters). -/
def opTok (c : Char) : Token :=
  if c = '|' then .pipeOp
  else if c = '=' then .equal
  else if c = '/' then .slash
  else if c = '<' then .redirectLeft
  else .redirectRight

/-- The states of the `LexingFSM`: `Start`, `ReadingWord`,
`ReadingSingleQuote`, `ReadingDoubleQuote`, `ReadingCmdSubst(depth)`,
`ReadingParamSubst(depth)`. -/
inductive Mode where
  | start
  | readingWord
  | readingSingleQuote
  | readingDoubleQuote
  | readingCmdSubst (depth : Nat)
  | readingParamSubst (depth : Nat)
deriving DecidableEq, Repr

/-- The lexer state: current FSM mode, the pending literal buffer, the
pending substitution text buffer, the parts of the word being read, and the
tokens emitted so far. -/
structure LexSt where
  mode : Mode
  buf : List Char
  sub : List Char
  parts : List WordPart
  toks : List Token
deriving DecidableEq, Repr

/-- Move a nonempty literal buffer into the word parts. -/
def flushBuf (st : LexSt) : LexSt :=
  if st.buf = [] then st
  else { st with parts := st.parts ++ [.literal (String.mk st.buf)], buf := [] }

/-- Finalize the pending word: flush the buffer and emit a `Word` token if
any parts were collected. -/
def finalizeWord (st : LexSt) : LexSt :=
  let st' := flushBuf st
  if st'.parts = [] then st'
  else { st' with toks := st'.toks ++ [.word st'.parts], parts := [] }

/-- Handle a `$` seen while reading a word (or at `Start`): `$(` enters
command substitution with depth 1, `${` enters parameter substitution with
depth 1, `$name` becomes a parameter-substitution part directly, and an
invalid format keeps the `$` as a plain literal. -/
def dollarWord (st : LexSt) (rest : List Char) : LexSt × List Char :=
  match rest with
  | '(' :: r2 => ({ flushBuf st with mode := .readingCmdSubst 1, sub := [] }, r2)
  | '{' :: r2 => ({ flushBuf st with mode := .readingParamSubst 1, sub := [] }, r2)
  | c2 :: _ =>
    if isIdentStart c2 then
      let st' := flushBuf st
      ({ st' with
          parts := st'.parts ++ [.paramSubst (String.mk (rest.takeWhile isIdentChar))],
          mode := .readingWord },
        rest.dropWhile isIdentChar)
    else ({ st with buf := st.buf ++ ['$'], mode := .readingWord }, rest)
  | [] => ({ st with buf := st.buf ++ ['$'], mode := .readingWord }, [])

/-- One transition of the `LexingFSM`: consume the character `c` (and, for
two-character sequences such as `$(`, part of `rest`), following the
transition graph of the design. -/
def lexStep (st : LexSt) (c : Char) (rest : List Char) : LexSt × List Char :=
  match st.mode with
  | .start =>
    if c = ' ' || c = '\t' then (st, rest)
    else if c = sq then ({ st with mode := .readingSingleQuote }, rest)
    else if c = dq then ({ st with mode := .readingDoubleQuote }, rest)
    else if c = '$' then dollarWord st rest
    else if isOpChar c then ({ st with toks := st.toks ++ [opTok c] }, rest)
    else ({ st with mode := .readingWord, buf := st.buf ++ [c] }, rest)
  | .readingWord =>
    if c = ' ' || c = '\t' then ({ finalizeWord st with mode := .start }, rest)
    else if c = sq then ({ st with mode := .readingSingleQuote }, rest)
    else if c = dq then ({ st with mode := .readingDoubleQuote }, rest)
    else if c = '$' then dollarWord st rest
    else if isOpChar c then
      let st' := finalizeWord st
      ({ st' with mode := .start, toks := st'.toks ++ [opTok c] }, rest)
    else ({ st with buf := st.buf ++ [c] }, rest)
  | .readingSingleQuote =>
    if c = sq then ({ st with mode := .readingWord }, rest)
    else ({ st with buf := st.buf ++ [c] }, rest)
  | .readingDoubleQuote =>
    if c = dq then ({ st with mode := .readingWord }, rest)
    else if c = '$' then
      match rest with
      | '(' :: r2 => ({ flushBuf st with mode := .readingCmdSubst 1, sub := [] }, r2)
      | '{' :: r2 => ({ flushBuf st with mode := .readingParamSubst 1, sub := [] }, r2)
      | _ => ({ st with buf := st.buf ++ [c] }, rest)
    else ({ st with buf := st.buf ++ [c] }, rest)
  | .readingCmdSubst d =>
    if c = '(' then ({ st with mode := .readingCmdSubst (d + 1), sub := st.sub ++ [c] }, rest)
    else if c = ')' then
      if d = 1 then
        ({ st with
            mode := .readingWord
            parts := st.parts ++ [.cmdSubst (String.mk st.sub)]
            sub := [] }, rest)
      else ({ st with mode := .readingCmdSubst (d - 1), sub := st.sub ++ [c] }, rest)
    else ({ st with sub := st.sub ++ [c] }, rest)
  | .readingParamSubst d =>
    if c = '{' then ({ st with mode := .readingParamSubst (d + 1), sub := st.sub ++ [c] }, rest)
    else if c = '}' then
      if d = 1 then
        ({ st with
            mode := .readingWord
            parts := st.parts ++ [.paramSubst (String.mk st.sub)]
            sub := [] }, rest)
      else ({ st with mode := .readingParamSubst (d - 1), sub := st.sub ++ [c] }, rest)
    else ({ st with sub := st.sub ++ [c] }, rest)

/-- The lexer error: an unterminated quote or substitution at end of input. -/
inductive LexError where
  | unterminated
deriving DecidableEq, Repr

/-- End of input: acceptance only in `Start`, or `ReadingWord` with the
pending word flushed; any other state is a `LexError`. -/
def lexEof (st : LexSt) : Except LexError (List Token) :=
  match st.mode with
  | .start => .ok (finalizeWord st).toks
  | .readingWord => .ok (finalizeWord st).toks
  | _ => .error .unterminated

/-- Run the FSM over the input. Each `lexStep` consumes at least one
character, so fuel `input.length + 1` (as supplied by `tokenize`) never runs
out before the input is exhausted; the fuel-zero case therefore coincides
with the end-of-input check. -/
def lexRun (fuel : Nat) (st : LexSt) (input : List Char) : Except LexError (List Token) :=
  match fuel with
  | 0 => lexEof st
  | fuel + 1 =>
    match input with
    | [] => lexEof st
    | c :: rest =>
      let (st', rest') := lexStep st c rest
      lexRun fuel st' rest'

/-- The initial lexer state. -/
def initSt : LexSt := ⟨.start, [], [], [], []⟩

/-- `tokenize(line)`: run the FSM from `Start` over the whole line. -/
def tokenize (s : String) : Except LexError (List Token) :=
  lexRun (s.data.length + 1) initSt s.data

example : tokenize "cmd" = .ok [.word [.literal "cmd"]] := by rfl
example : tokenize "a b" = .ok [.word [.literal "a"], .word [.literal "b"]] := by rfl

/-- `Word` from the design: a simple literal or a compound of parts. -/
inductive Word where
  | literal (s : String)
  | compound (parts : List WordPart)
deriving DecidableEq, Repr

/-- `RedirectKind` from the design: input, overwrite output, append output. -/
inductive RedirectKind where
  | input
  | output
  | append
deriving DecidableEq, Repr

/-- `SubstKind` from the design. -/
inductive SubstKind where
  | command
  | parameter
deriving DecidableEq, Repr

/-- `AstNode` from the design: a pipeline of commands, a simple command
(argv, assignments, redirects), an assignment (value `none` means the empty
string), a redirection, or a substitution. -/
inductive Ast where
  | pipeline (cmds : List Ast)
  | command (argv : List Word) (assignments : List Ast) (redirects : List Ast)
  | assignment (name : String) (value : Option Word)
  | redirect (kind : RedirectKind) (target : Word)
  | substitution (kind : SubstKind) (content : Ast)
deriving Repr

/-- Collapse a collected part list: a single literal becomes `Word.literal`,
anything else is `Word.compound`. -/
def mkWord : List WordPart → Word
  | [.literal s] => .literal s
  | ps => .compound ps

/-- A valid assignment name: a simple identifier (letter or underscore,
then letters, digits, underscores). -/
def isValidName (s : String) : Bool :=
  match s.data with
  | [] => false
  | c :: cs => isIdentStart c && cs.all isIdentChar

/-- Append the word being collected (if any) to argv. The `Bool` flag of the
work-in-progress word records whether the last piece was a `/` or `=`
connector, which lets a following `Word` token glue onto the same word
(path-like words such as `./cmd`). -/
def flushWip (wip : Option (List WordPart × Bool)) (argv : List Word) : List Word :=
  match wip with
  | none => argv
  | some (ps, _) => argv ++ [mkWord ps]

/-- The parser error: a redirection with no target word, or tokens left
over after the pipeline. -/
inductive ParseError where
  | missingRedirectTarget
  | trailingTokens
deriving DecidableEq, Repr

/-- `parse_command` from the flowchart: repeatedly inspect the next token.
A `Word` that is a single literal identifier directly followed by `Equal`,
seen before any argv word, is an assignment (with an optional following
`Word` as value).  Other `Word` / `Slash` / `Equal` tokens collect into
path-like argv words.  A redirection token parses its kind (`>` `>` merging
into `Append`) and takes the following `Word` as target, failing without
one.  `PipeOp` or end of input stops the command.  Every step consumes at
least one token, so the fuel `toks.length` supplied by `parseCommand` never
runs out before the stream is exhausted. -/
def parseCmdLoop :
    Nat → List Token → Option (List WordPart × Bool) → List Word → List Ast → List Ast →
    Except ParseError ((List Word × List Ast × List Ast) × List Token)
  | 0, toks, wip, argv, as, rs => .ok ((flushWip wip argv, as, rs), toks)
  | _ + 1, [], wip, argv, as, rs => .ok ((flushWip wip argv, as, rs), [])
  | _ + 1, toks@(.pipeOp :: _), wip, argv, as, rs => .ok ((flushWip wip argv, as, rs), toks)
  | fuel + 1, .word [.literal n] :: .equal :: rest, none, [], as, rs =>
    if isValidName n then
      match rest with
      | .word v :: rest2 =>
        parseCmdLoop fuel rest2 none [] (as ++ [.assignment n (some (mkWord v))]) rs
      | _ => parseCmdLoop fuel rest none [] (as ++ [.assignment n none]) rs
    else
      parseCmdLoop fuel rest (some ([WordPart.literal n, WordPart.literal "="], true)) [] as rs
  | fuel + 1, .word w :: rest, wip, argv, as, rs =>
    match wip with
    | some (ps, true) => parseCmdLoop fuel rest (some (ps ++ w, false)) argv as rs
    | some (ps, false) => parseCmdLoop fuel rest (some (w, false)) (argv ++ [mkWord ps]) as rs
    | none => parseCmdLoop fuel rest (some (w, false)) argv as rs
  | fuel + 1, .slash :: rest, wip, argv, as, rs =>
    let ps := (wip.map Prod.fst).getD []
    parseCmdLoop fuel rest (some (ps ++ [WordPart.literal "/"], true)) argv as rs
  | fuel + 1, .equal :: rest, wip, argv, as, rs =>
    let ps := (wip.map Prod.fst).getD []
    parseCmdLoop fuel rest (some (ps ++ [WordPart.literal "="], true)) argv as rs
  | fuel + 1, .redirectLeft :: rest, wip, argv, as, rs =>
    match rest with
    | .word t :: rest2 =>
      parseCmdLoop fuel rest2 none (flushWip wip argv) as (rs ++ [.redirect .input (mkWord t)])
    | _ => .error .missingRedirectTarget
  | fuel + 1, .redirectRight :: .redirectRight :: rest, wip, argv, as, rs =>
    match rest with
    | .word t :: rest2 =>
      parseCmdLoop fuel rest2 none (flushWip wip argv) as (rs ++ [.redirect .append (mkWord t)])
    | _ => .error .missingRedirectTarget
  | fuel + 1, .redirectRight :: rest, wip, argv, as, rs =>
    match rest with
    | .word t :: rest2 =>
      parseCmdLoop fuel rest2 none (flushWip wip argv) as (rs ++ [.redirect .output (mkWord t)])
    | _ => .error .missingRedirectTarget

/-- `parse_command`: build one `Command` node from the token stream and
return it with the unconsumed tokens. -/
def parseCommand (toks : List Token) : Except ParseError (Ast × List Token) :=
  match parseCmdLoop toks.length toks none [] [] [] with
  | .error e => .error e
  | .ok ((argv, as, rs), rest) => .ok (.command argv as rs, rest)

/-- The `parse_pipeline` loop: while the next token is `PipeOp`, consume it
and parse another command.  Each iteration consumes the pipe token, so the
fuel `toks.length` supplied by `constructAst` never runs out first. -/
def parsePipeRest : Nat → List Token → Except ParseError (List Ast × List Token)
  | 0, toks => .ok ([], toks)
  | fuel + 1, .pipeOp :: rest =>
    match parseCommand rest with
    | .error e => .error e
    | .ok (c, rest') =>
      match parsePipeRest fuel rest' with
      | .error e => .error e
      | .ok (cs, rest'') => .ok (c :: cs, rest'')
  | _ + 1, toks => .ok ([], toks)

/-- `construct_ast` / `build_ast`: parse a pipeline, collapse a single
command to a bare `Command` node, and fail on any unconsumed token. -/
def constructAst (toks : List Token) : Except ParseError Ast :=
  match parseCommand toks with
  | .error e => .error e
  | .ok (c, rest) =>
    match parsePipeRest rest.length rest with
    | .error e => .error e
    | .ok (cs, rest') =>
      match rest' with
      | [] =>
        match cs with
        | [] => .ok c
        | _ => .ok (.pipeline (c :: cs))
      | _ => .error .trailingTokens

example :
    constructAst [.word [.literal "cmd"], .redirectRight, .redirectRight, .word [.literal "file"]] =
      .ok (.command [.literal "cmd"] [] [.redirect .append (.literal "file")]) := by rfl

example :
    constructAst [.word [.literal "a"], .pipeOp, .word [.literal "b"], .pipeOp, .word [.literal "c"]] =
      .ok (.pipeline [.command [.literal "a"] [] [], .command [.literal "b"] [] [],
        .command [.literal "c"] [] []]) := by rfl

example :
    constructAst [.word [.literal "A"], .equal, .word [.literal "21"], .word [.literal "x"]] =
      .ok (.command [.literal "x"] [.assignment "A" (some (.literal "21"))] []) := by rfl

/-- The Environment Store: a mapping from variable name to value. -/
abbrev EnvMap := List (String × String)

/-- Look a variable up in the store. -/
def envGet (env : EnvMap) (n : String) : Option String :=
  (env.find? (fun p => p.1 == n)).map Prod.snd

/-- Set a variable in the store (assignment overwrites: the store never
holds two entries with the same name). -/
def envSet (env : EnvMap) (n v : String) : EnvMap :=
  (n, v) :: env.filter (fun p => p.1 != n)

/-- The behaviour of an invoked command, supplied as a parameter of the
embedding: from name, arguments, environment and standard input to captured
standard output and exit code.  External commands and built-ins are opaque
collaborators of the executor. -/
abbrev RunOracle := String → List String → EnvMap → String → String × Nat

/-- The hardcoded built-in command names of the executor. -/
def builtinNames : List String := ["pwd", "cd", "ls", "exit", "grep"]

/-- Render one `WordPart` (`word_to_string` per part): literals verbatim,
parameter substitutions from the environment (empty if unset), command
substitutions through the substitution collaborator `cst`. -/
def renderPart (cst : String → String) (env : EnvMap) : WordPart → String
  | .literal s => s
  | .paramSubst n => (envGet env n).getD ""
  | .cmdSubst t => cst t

/-- `word_to_string`: render a word against an environment. -/
def wordToString (cst : String → String) (env : EnvMap) : Word → String
  | .literal s => s
  | .compound ps => String.join (ps.map (renderPart cst env))

/-- Apply `Assignment` nodes to an environment, left to right
(the loop `For each AstNode::Assignment` of the executor flowchart);
non-assignment nodes in the list are skipped. -/
def applyAssignments (cst : String → String) (env : EnvMap) : List Ast → EnvMap
  | [] => env
  | .assignment n v :: rest =>
    let value := match v with
      | some w => wordToString cst env w
      | none => ""
    applyAssignments cst (envSet env n value) rest
  | _ :: rest => applyAssignments cst env rest

/-- One observable command invocation: the resolved name and arguments, the
environment handed to the invocation (`envs` of the spawned process, or the
environment cloned for a built-in), its standard input, and whether it was
run as an external process. -/
structure SpawnEvent where
  name : String
  args : List String
  env : EnvMap
  stdin : String
  external : Bool
deriving DecidableEq, Repr

/-- Executor errors: `Error: Empty Pipeline` and the `unimplemented!` arm
for unsupported root nodes. -/
inductive ExecError where
  | emptyPipeline
  | unimplemented
deriving DecidableEq, Repr

/-- The result of `execute_ast`: the ambient environment afterwards, the
exit code, the final captured output, and the trace of command
invocations. -/
structure ExecResult where
  env : EnvMap
  code : Nat
  out : String
  trace : List SpawnEvent
deriving DecidableEq, Repr

/-- One pipeline stage (the body of the pipeline loop): clone the ambient
env and apply the stage's assignments to the local clone; resolve name and
args through the local env; but spawn the external process — or invoke the
built-in — with the ambient `self.env`, feeding it the previous stage's
output and capturing its own. -/
def execStage (re rb : RunOracle) (cst : String → String) (env : EnvMap) (stdin : String) :
    Ast → Except ExecError (String × Nat × List SpawnEvent)
  | .command argv assigns _ =>
    let localEnv := applyAssignments cst env assigns
    match argv with
    | [] => .ok ("", 0, [])
    | a0 :: argsW =>
      let name := wordToString cst localEnv a0
      let args := argsW.map (wordToString cst localEnv)
      if builtinNames.contains name then
        .ok ((rb name args env stdin).1, (rb name args env stdin).2,
          [⟨name, args, env, stdin, false⟩])
      else
        .ok ((re name args env stdin).1, (re name args env stdin).2,
          [⟨name, args, env, stdin, true⟩])
  | _ => .error .unimplemented

/-- The pipeline loop: iterate over the stages, threading each stage's
captured output into the next stage's input and keeping the most recent
exit code (`Update previous_output and last_exit`). -/
def execPipeLoop (re rb : RunOracle) (cst : String → String) (env : EnvMap) :
    List Ast → String → Nat → Except ExecError (String × Nat × List SpawnEvent)
  | [], prevOut, lastExit => .ok (prevOut, lastExit, [])
  | c :: rest, prevOut, _lastExit =>
    match execStage re rb cst env prevOut c with
    | .error e => .error e
    | .ok (out, code, evs) =>
      match execPipeLoop re rb cst env rest out code with
      | .error e => .error e
      | .ok (fout, fcode, tr) => .ok (fout, fcode, evs ++ tr)

/-- `execute_ast`: a `Command` root applies its assignments to the ambient
`self.env`, returns 0 immediately when argv is empty, and otherwise resolves
and runs argv; a `Pipeline` root rejects the empty pipeline and otherwise
runs the stage loop (the ambient env is untouched); any other root is
unimplemented. -/
def execAst (re rb : RunOracle) (cst : String → String) (env : EnvMap) :
    Ast → Except ExecError ExecResult
  | .command argv assigns _ =>
    let env' := applyAssignments cst env assigns
    match argv with
    | [] => .ok ⟨env', 0, "", []⟩
    | a0 :: argsW =>
      let name := wordToString cst env' a0
      let args := argsW.map (wordToString cst env')
      if builtinNames.contains name then
        .ok ⟨env', (rb name args env' "").2, (rb name args env' "").1,
          [⟨name, args, env', "", false⟩]⟩
      else
        .ok ⟨env', (re name args env' "").2, (re name args env' "").1,
          [⟨name, args, env', "", true⟩]⟩
  | .pipeline [] => .error .emptyPipeline
  | .pipeline (c :: cs) =>
    match execPipeLoop re rb cst env (c :: cs) "" 0 with
    | .error e => .error e
    | .ok (fout, fcode, tr) => .ok ⟨env, fcode, fout, tr⟩
  | _ => .error .unimplemented

/-- A sample external-command collaborator: `failcmd` exits 1, everything
else exits 0; output is the command name tagged with its input. -/
def re0 : RunOracle := fun n _ _ i => (n ++ "(" ++ i ++ ")", if n = "failcmd" then 1 else 0)

/-- A sample built-in collaborator. -/
def rb0 : RunOracle := fun _ _ _ _ => ("", 0)

/-- A sample command-substitution collaborator. -/
def cst0 : String → String := fun _ => ""

example :
    execAst re0 rb0 cst0 [] (.pipeline [.command [.literal "failcmd"] [] [],
      .command [.literal "okcmd"] [] []]) =
    .ok ⟨[], 0, "okcmd(failcmd())",
      [⟨"failcmd", [], [], "", true⟩, ⟨"okcmd", [], [], "failcmd()", true⟩]⟩ := by rfl

/-- The unterminated-quote line of the lexer contract. -/
def c6input : String := "echo " ++ String.singleton sq ++ "unterminated)"

/-- A word with a single-quoted region containing a dollar, a pipe and a
double quote. -/
def c8input : String :=
  "a" ++ String.singleton sq ++ "$|" ++ String.singleton dq ++ String.singleton sq ++ "b"

/-- C1: the spec's scope rule says `A=21 somecmd` must not leave `A` in the
ambient store, and the AST's own documentation says command assignments
apply only to that command's environment; but `execute_ast` applies the
assignments of a `Command` root directly to `self.env` before running argv,
so after `A=21 somecmd` the ambient store maps `A` to `21`.  (The final
conjunct shows the pure-assignment half of the claim, which the code does
satisfy.) -/
theorem c1_ambient_store_mutated :
    tokenize "A=21 somecmd" =
      .ok [.word [.literal "A"], .equal, .word [.literal "21"], .word [.literal "somecmd"]] ∧
    constructAst [.word [.literal "A"], .equal, .word [.literal "21"], .word [.literal "somecmd"]] =
      .ok (.command [.literal "somecmd"] [.assignment "A" (some (.literal "21"))] []) ∧
    execAst re0 rb0 cst0 []
        (.command [.literal "somecmd"] [.assignment "A" (some (.literal "21"))] []) =
      .ok ⟨[("A", "21")], 0, "somecmd()", [⟨"somecmd", [], [("A", "21")], "", true⟩]⟩ ∧
    envGet [("A", "21")] "A" = some "21" ∧
    execAst re0 rb0 cst0 [] (.command [] [.assignment "A" (some (.literal "21"))] []) =
      .ok ⟨[("A", "21")], 0, "", []⟩ :=
  ⟨rfl, rfl, rfl, rfl, rfl⟩

/-- C7: lexing emits two `RedirectRight` tokens for `>>` (the token type has
no append variant) and the parser merges them into a single
`RedirectKind.Append` redirect, so exactly one append-capable path reaches
the parser: `cmd >> file` parses to a `Command` with one `Append` redirect
whose target is `file`. -/
theorem c7_append_redirect :
    (∀ cn fn : String,
      constructAst [.word [.literal cn], .redirectRight, .redirectRight, .word [.literal fn]] =
        .ok (.command [.literal cn] [] [.redirect .append (.literal fn)])) ∧
    tokenize "cmd >> file" =
      .ok [.word [.literal "cmd"], .redirectRight, .redirectRight, .word [.literal "file"]] :=
  ⟨fun _ _ => rfl, rfl⟩

/-- C9: executing a `Command` node with empty argv applies the assignments
and returns exit code 0 immediately — output is empty and the invocation
trace is empty, so no command was resolved or run. -/
theorem c9_empty_argv_returns_zero
    (re rb : RunOracle) (cst : String → String) (env : EnvMap)
    (assigns redirects : List Ast) :
    execAst re rb cst env (.command [] assigns redirects) =
      .ok ⟨applyAssignments cst env assigns, 0, "", []⟩ :=
  rfl

/-- C10: `execute_ast` only implements `Command` and `Pipeline` roots: an
`Assignment`, `Redirect` or `Substitution` root returns the unimplemented
error (no invocation, no result environment), and the empty `Pipeline`
returns the empty-pipeline error. -/
theorem c10_unsupported_roots
    (re rb : RunOracle) (cst : String → String) (env : EnvMap) (node : Ast) :
    ((∃ n v, node = .assignment n v) ∨ (∃ k t, node = .redirect k t) ∨
        (∃ k c, node = .substitution k c) →
      execAst re rb cst env node = .error .unimplemented) ∧
    execAst re rb cst env (.pipeline []) = .error .emptyPipeline := by
  constructor
  · rintro (⟨n, v, rfl⟩ | ⟨k, t, rfl⟩ | ⟨k, c, rfl⟩) <;> rfl
  · rfl

/-- Witness for C10 at concrete roots. -/
theorem c10_witness :
    execAst re0 rb0 cst0 [] (.assignment "A" none) = .error .unimplemented ∧
    execAst re0 rb0 cst0 [] (.pipeline []) = .error .emptyPipeline :=
  ⟨(c10_unsupported_roots re0 rb0 cst0 [] (.assignment "A" none)).1 (Or.inl ⟨"A", none, rfl⟩),
    (c10_unsupported_roots re0 rb0 cst0 [] (.assignment "A" none)).2⟩

/-- C6: `tokenize` fails exactly when the FSM ends in a state other than
`Start` or `ReadingWord` at end of input — the end-of-input acceptance check
succeeds if and only if the mode is `Start` or `ReadingWord` — and a failure
is an error value carrying no token sequence; in particular the line with
the unterminated single quote fails with a `LexError`. -/
theorem c6_lex_error_iff_unterminated :
    (∀ st : LexSt,
      (∃ toks, lexEof st = .ok toks) ↔ (st.mode = .start ∨ st.mode = .readingWord)) ∧
    tokenize c6input = .error .unterminated := by
  constructor
  · intro st
    cases h : st.mode <;> simp [lexEof, h]
  · rfl

/-- C8: inside `ReadingSingleQuote` every character other than the closing
quote is appended to the literal buffer with no token emitted, no
substitution entered and no word break — the state is unchanged except for
the buffer — and the closing quote only changes the mode back to
`ReadingWord`; concretely, a single-quoted region containing a dollar, a
pipe and a double quote lexes as one literal word. -/
theorem c8_single_quote_literal :
    (∀ (st : LexSt) (c : Char) (rest : List Char), st.mode = .readingSingleQuote →
      (c ≠ sq → lexStep st c rest = ({ st with buf := st.buf ++ [c] }, rest)) ∧
      (c = sq → lexStep st c rest = ({ st with mode := .readingWord }, rest))) ∧
    tokenize c8input =
      .ok [.word [.literal ("a$|" ++ String.singleton dq ++ "b")]] := by
  constructor
  · intro st c rest h
    constructor
    · intro hc
      simp only [lexStep, h, if_neg hc]
    · intro hc
      simp only [lexStep, h, if_pos hc]
  · rfl

/-- Witness for C8: a dollar inside single quotes is buffered literally. -/
theorem c8_witness :
    lexStep ⟨.readingSingleQuote, [], [], [], []⟩ '$' [] =
      (⟨.readingSingleQuote, ['$'], [], [], []⟩, []) :=
  (c8_single_quote_literal.1 ⟨.readingSingleQuote, [], [], [], []⟩ '$' [] rfl).1 (by decide)

/-- The depth counter of a substitution state is at least 1 (trivially true
in every other state). -/
def depthInv (st : LexSt) : Prop :=
  ∀ d : Nat, (st.mode = .readingCmdSubst d ∨ st.mode = .readingParamSubst d) → 1 ≤ d

theorem depthInv_lexStep (st : LexSt) (c : Char) (rest : List Char)
    (h : depthInv st) : depthInv (lexStep st c rest).1 := by
  obtain ⟨m, buf, sub, parts, toks⟩ := st
  intro d hd
  cases m <;>
    simp only [lexStep, dollarWord, flushBuf, finalizeWord] at hd <;>
    rcases hd with hd | hd <;>
    (repeat' split at hd) <;>
    simp_all [depthInv] <;>
    omega

theorem cmdSubst_exit (st : LexSt) (c : Char) (rest : List Char) (d : Nat)
    (h : st.mode = .readingCmdSubst d) :
    (∃ d', (lexStep st c rest).1.mode = .readingCmdSubst d') ∨
      (c = ')' ∧ d = 1 ∧ (lexStep st c rest).1.mode = .readingWord) := by
  obtain ⟨m, buf, sub, parts, toks⟩ := st
  cases m <;> simp_all [lexStep]
  subst h
  split_ifs <;> simp_all

theorem paramSubst_exit (st : LexSt) (c : Char) (rest : List Char) (d : Nat)
    (h : st.mode = .readingParamSubst d) :
    (∃ d', (lexStep st c rest).1.mode = .readingParamSubst d') ∨
      (c = '}' ∧ d = 1 ∧ (lexStep st c rest).1.mode = .readingWord) := by
  obtain ⟨m, buf, sub, parts, toks⟩ := st
  cases m <;> simp_all [lexStep]
  subst h
  split_ifs <;> simp_all

/-- C3: every `lexStep` preserves the invariant that the depth counter is
at least 1 while the FSM is in a substitution state; from a substitution
state the FSM either stays in that substitution state or leaves it to
`ReadingWord` exactly on the matching closing delimiter at depth 1 (the
design's `depth==1 and close` condition, i.e. the decrement that would
reach 0); and `$(echo $(date))` lexes to a single `CommandSubstitution`
word part whose inner text still contains the fully consumed `$(date)`. -/
theorem c3_subst_depth_invariant :
    (∀ (st : LexSt) (c : Char) (rest : List Char),
      depthInv st → depthInv (lexStep st c rest).1) ∧
    (∀ (st : LexSt) (c : Char) (rest : List Char) (d : Nat),
      st.mode = .readingCmdSubst d →
      (∃ d', (lexStep st c rest).1.mode = .readingCmdSubst d') ∨
        (c = ')' ∧ d = 1 ∧ (lexStep st c rest).1.mode = .readingWord)) ∧
    (∀ (st : LexSt) (c : Char) (rest : List Char) (d : Nat),
      st.mode = .readingParamSubst d →
      (∃ d', (lexStep st c rest).1.mode = .readingParamSubst d') ∨
        (c = '}' ∧ d = 1 ∧ (lexStep st c rest).1.mode = .readingWord)) ∧
    tokenize "$(echo $(date))" = .ok [.word [.cmdSubst "echo $(date)"]] :=
  ⟨depthInv_lexStep, cmdSubst_exit, paramSubst_exit, rfl⟩

/-- Witness for C3: stepping the FSM at depth 2 on a closing parenthesis
keeps the depth at least 1, and the inner close does not leave the state. -/
theorem c3_witness :
    depthInv (lexStep ⟨.readingCmdSubst 2, [], [], [], []⟩ ')' []).1 ∧
    tokenize "$(echo $(date))" = .ok [.word [.cmdSubst "echo $(date)"]] :=
  ⟨c3_subst_depth_invariant.1 ⟨.readingCmdSubst 2, [], [], [], []⟩ ')' []
      (by
        intro d hd
        rcases hd with h | h
        · cases h
          omega
        · cases h),
    c3_subst_depth_invariant.2.2.2⟩

/-- Appending a final stage to the pipeline loop: if the prefix runs to
captured output `out` (with any exit code `le`) and the final stage on that
input yields `(o, ec, evs)`, the whole loop yields the final stage's output
and exit code, with the traces concatenated. -/
theorem execPipeLoop_last (re rb : RunOracle) (cst : String → String) (env : EnvMap)
    (c : Ast) (cmds : List Ast) :
    ∀ (prevOut : String) (lastExit : Nat) (out : String) (le : Nat) (tr : List SpawnEvent)
      (o : String) (ec : Nat) (evs : List SpawnEvent),
      execPipeLoop re rb cst env cmds prevOut lastExit = .ok (out, le, tr) →
      execStage re rb cst env out c = .ok (o, ec, evs) →
      execPipeLoop re rb cst env (cmds ++ [c]) prevOut lastExit = .ok (o, ec, tr ++ evs) := by
  induction cmds with
  | nil =>
    intro prevOut lastExit out le tr o ec evs h1 h2
    simp only [execPipeLoop, Except.ok.injEq, Prod.mk.injEq] at h1
    obtain ⟨ho, _, ht⟩ := h1
    subst ho
    subst ht
    simp [execPipeLoop, h2]
  | cons c' cmds' ih =>
    intro prevOut lastExit out le tr o ec evs h1 h2
    simp only [execPipeLoop] at h1
    cases h3 : execStage re rb cst env prevOut c' with
    | error e => rw [h3] at h1; simp at h1
    | ok r =>
      obtain ⟨out1, code1, evs1⟩ := r
      rw [h3] at h1
      simp only at h1
      cases h4 : execPipeLoop re rb cst env cmds' out1 code1 with
      | error e => rw [h4] at h1; simp at h1
      | ok r2 =>
        obtain ⟨out2, le2, tr2⟩ := r2
        rw [h4] at h1
        simp only [Except.ok.injEq, Prod.mk.injEq] at h1
        obtain ⟨ho, _, ht⟩ := h1
        subst ho
        subst ht
        have hih := ih out1 code1 out2 le2 tr2 o ec evs h4 h2
        simp [List.cons_append, execPipeLoop, h3, hih, List.append_assoc]

/-- C2: executing a pipeline returns the exit code of its last stage: if
running the earlier stages yields captured output `out` (whatever their
exit codes — `le` is unconstrained and absent from the conclusion) and the
last stage on input `out` exits with `ec`, the pipeline reports exactly
`ec`, the last stage's output, and the concatenated invocation trace (no
earlier failure aborts the pipeline), leaving the ambient store unchanged. -/
theorem c2_pipeline_last_stage_exit (re rb : RunOracle) (cst : String → String)
    (env : EnvMap) (cmds : List Ast) (c : Ast) (out : String) (le : Nat)
    (tr : List SpawnEvent) (o : String) (ec : Nat) (evs : List SpawnEvent)
    (h1 : execPipeLoop re rb cst env cmds "" 0 = .ok (out, le, tr))
    (h2 : execStage re rb cst env out c = .ok (o, ec, evs)) :
    execAst re rb cst env (.pipeline (cmds ++ [c])) = .ok ⟨env, ec, o, tr ++ evs⟩ := by
  have hl := execPipeLoop_last re rb cst env c cmds "" 0 out le tr o ec evs h1 h2
  cases cmds with
  | nil =>
    simp only [List.nil_append] at hl ⊢
    simp [execAst, hl]
  | cons c0 cmds' =>
    simp only [List.cons_append] at hl ⊢
    simp [execAst, hl]

/-- Witness for C2: a two-stage pipeline whose first stage exits 1 and whose
last stage exits 0 reports exit code 0, with both stages in the trace. -/
theorem c2_witness :
    execAst re0 rb0 cst0 [] (.pipeline ([.command [.literal "failcmd"] [] []] ++
        [.command [.literal "okcmd"] [] []])) =
      .ok ⟨[], 0, "okcmd(failcmd())",
        [⟨"failcmd", [], [], "", true⟩] ++ [⟨"okcmd", [], [], "failcmd()", true⟩]⟩ :=
  c2_pipeline_last_stage_exit re0 rb0 cst0 [] [.command [.literal "failcmd"] [] []]
    (.command [.literal "okcmd"] [] []) "failcmd()" 1 [⟨"failcmd", [], [], "", true⟩]
    "okcmd(failcmd())" 0 [⟨"okcmd", [], [], "failcmd()", true⟩] rfl rfl

theorem execStage_env (re rb : RunOracle) (cst : String → String) (env : EnvMap)
    (stdin : String) (a : Ast) (o : String) (ec : Nat) (evs : List SpawnEvent)
    (h : execStage re rb cst env stdin a = .ok (o, ec, evs)) :
    ∀ ev ∈ evs, ev.env = env := by
  cases a with
  | command argv assigns reds =>
    cases argv with
    | nil =>
      simp only [execStage, Except.ok.injEq, Prod.mk.injEq] at h
      obtain ⟨-, -, h⟩ := h
      subst h
      simp
    | cons a0 argsW =>
      simp only [execStage] at h
      split_ifs at h <;>
      · simp only [Except.ok.injEq, Prod.mk.injEq] at h
        obtain ⟨-, -, h⟩ := h
        subst h
        simp
  | pipeline cmds => simp [execStage] at h
  | assignment n v => simp [execStage] at h
  | redirect k t => simp [execStage] at h
  | substitution k c => simp [execStage] at h

theorem execPipeLoop_env (re rb : RunOracle) (cst : String → String) (env : EnvMap) :
    ∀ (cmds : List Ast) (prevOut : String) (lastExit : Nat) (fout : String)
      (fcode : Nat) (tr : List SpawnEvent),
      execPipeLoop re rb cst env cmds prevOut lastExit = .ok (fout, fcode, tr) →
      ∀ ev ∈ tr, ev.env = env := by
  intro cmds
  induction cmds with
  | nil =>
    intro prevOut lastExit fout fcode tr h
    simp only [execPipeLoop, Except.ok.injEq, Prod.mk.injEq] at h
    obtain ⟨-, -, h⟩ := h
    subst h
    simp
  | cons c' cmds' ih =>
    intro prevOut lastExit fout fcode tr h
    simp only [execPipeLoop] at h
    cases h3 : execStage re rb cst env prevOut c' with
    | error e => rw [h3] at h; simp at h
    | ok r =>
      obtain ⟨out1, code1, evs1⟩ := r
      rw [h3] at h
      simp only at h
      cases h4 : execPipeLoop re rb cst env cmds' out1 code1 with
      | error e => rw [h4] at h; simp at h
      | ok r2 =>
        obtain ⟨out2, code2, tr2⟩ := r2
        rw [h4] at h
        simp only [Except.ok.injEq, Prod.mk.injEq] at h
        obtain ⟨-, -, h⟩ := h
        subst h
        intro ev hev
        rcases List.mem_append.1 hev with hm | hm
        · exact execStage_env re rb cst env prevOut c' out1 code1 evs1 h3 ev hm
        · exact ih out1 code1 out2 code2 tr2 h4 ev hm

/-- First stage of the C4 pipeline: an assignment `A=1` before the command. -/
def c4stage1 : Ast := .command [.literal "c1"] [.assignment "A" (some (.literal "1"))] []

/-- Second stage of the C4 pipeline. -/
def c4stage2 : Ast := .command [.literal "c2"] [] []

/-- C4 counterexample: the claim says each external pipeline stage is
spawned with the overlay environment containing the stage's own
assignments.  In the code the stage's assignments go to a cloned local env
used only for resolving name and arguments, while the process is spawned
with `envs` from `self.env`: running `A=1 c1 | c2` from an empty ambient
store spawns both stages with an environment in which `A` is unset, even
though the overlay for the first stage (second conjunct) does contain
`A=1`. -/
theorem c4_counterexample :
    (execAst re0 rb0 cst0 [] (.pipeline [c4stage1, c4stage2])).map
        (fun r => r.trace.map (fun ev => envGet ev.env "A")) = .ok [none, none] ∧
    envGet (applyAssignments cst0 [] [.assignment "A" (some (.literal "1"))]) "A" =
      some "1" :=
  ⟨rfl, rfl⟩

/-- C4 (amended): every invocation recorded while executing a pipeline —
external spawn or built-in call — receives exactly the ambient environment
`self.env`, not the stage's overlay; the overlay (ambient store plus the
stage's assignments) is used only to resolve the stage's name and
arguments. -/
theorem c4_spawn_env_is_ambient (re rb : RunOracle) (cst : String → String)
    (env : EnvMap) (cmds : List Ast) (r : ExecResult)
    (h : execAst re rb cst env (.pipeline cmds) = .ok r) :
    ∀ ev ∈ r.trace, ev.env = env := by
  cases cmds with
  | nil => simp [execAst] at h
  | cons c0 cmds' =>
    simp only [execAst] at h
    cases h4 : execPipeLoop re rb cst env (c0 :: cmds') "" 0 with
    | error e => rw [h4] at h; simp at h
    | ok r2 =>
      obtain ⟨fout, fcode, tr⟩ := r2
      rw [h4] at h
      simp only [Except.ok.injEq] at h
      subst h
      exact execPipeLoop_env re rb cst env (c0 :: cmds') "" 0 fout fcode tr h4

/-- Witness for C4 (amended) at the concrete pipeline `A=1 c1 | c2`. -/
theorem c4_witness :
    (⟨"c1", [], [], "", true⟩ : SpawnEvent).env = ([] : EnvMap) :=
  c4_spawn_env_is_ambient re0 rb0 cst0 [] [c4stage1, c4stage2]
    ⟨[], 0, "c2(c1())", [⟨"c1", [], [], "", true⟩, ⟨"c2", [], [], "c1()", true⟩]⟩ rfl
    ⟨"c1", [], [], "", true⟩ (List.mem_cons_self _ _)

theorem parseCommand_shape (toks : List Token) (c : Ast) (rest : List Token)
    (h : parseCommand toks = .ok (c, rest)) :
    ∃ argv assigns reds, c = .command argv assigns reds := by
  unfold parseCommand at h
  cases h2 : parseCmdLoop toks.length toks none [] [] [] with
  | error e => rw [h2] at h; simp at h
  | ok r =>
    obtain ⟨⟨argv, as, rs⟩, rest2⟩ := r
    rw [h2] at h
    simp only [Except.ok.injEq, Prod.mk.injEq] at h
    exact ⟨argv, as, rs, h.1.symm⟩

theorem parsePipeRest_shape (fuel : Nat) :
    ∀ (toks : List Token) (cs : List Ast) (rest : List Token),
      parsePipeRest fuel toks = .ok (cs, rest) →
      ∀ x ∈ cs, ∃ argv assigns reds, x = .command argv assigns reds := by
  induction fuel with
  | zero =>
    intro toks cs rest h
    simp only [parsePipeRest, Except.ok.injEq, Prod.mk.injEq] at h
    obtain ⟨h, -⟩ := h
    subst h
    simp
  | succ fuel ih =>
    intro toks cs rest h
    match toks with
    | [] =>
      simp only [parsePipeRest, Except.ok.injEq, Prod.mk.injEq] at h
      obtain ⟨h, -⟩ := h
      subst h
      simp
    | .pipeOp :: rest2 =>
      simp only [parsePipeRest] at h
      cases h2 : parseCommand rest2 with
      | error e => rw [h2] at h; simp at h
      | ok r =>
        obtain ⟨c, rest3⟩ := r
        rw [h2] at h
        simp only at h
        cases h3 : parsePipeRest fuel rest3 with
        | error e => rw [h3] at h; simp at h
        | ok r2 =>
          obtain ⟨cs2, rest4⟩ := r2
          rw [h3] at h
          simp only [Except.ok.injEq, Prod.mk.injEq] at h
          obtain ⟨h, -⟩ := h
          subst h
          intro x hx
          rcases List.mem_cons.1 hx with hx | hx
          · subst hx
            exact parseCommand_shape rest2 x rest3 h2
          · exact ih rest3 cs2 rest4 h3 x hx
    | .word w :: rest2 =>
      simp only [parsePipeRest, Except.ok.injEq, Prod.mk.injEq] at h
      obtain ⟨h, -⟩ := h
      subst h
      simp
    | .equal :: rest2 =>
      simp only [parsePipeRest, Except.ok.injEq, Prod.mk.injEq] at h
      obtain ⟨h, -⟩ := h
      subst h
      simp
    | .slash :: rest2 =>
      simp only [parsePipeRest, Except.ok.injEq, Prod.mk.injEq] at h
      obtain ⟨h, -⟩ := h
      subst h
      simp
    | .redirectLeft :: rest2 =>
      simp only [parsePipeRest, Except.ok.injEq, Prod.mk.injEq] at h
      obtain ⟨h, -⟩ := h
      subst h
      simp
    | .redirectRight :: rest2 =>
      simp only [parsePipeRest, Except.ok.injEq, Prod.mk.injEq] at h
      obtain ⟨h, -⟩ := h
      subst h
      simp

/-- C5: a successful parse never yields a `Pipeline` with zero commands:
the result is either a bare `Command` node (the single-command collapse) or
a `Pipeline` holding at least two nodes — in particular at least one — each
of which is a `Command` node. -/
theorem c5_pipeline_never_empty (toks : List Token) (ast : Ast)
    (h : constructAst toks = .ok ast) :
    (∃ argv assigns reds, ast = .command argv assigns reds) ∨
    (∃ cmds, ast = .pipeline cmds ∧ 2 ≤ cmds.length ∧
      ∀ x ∈ cmds, ∃ argv assigns reds, x = .command argv assigns reds) := by
  unfold constructAst at h
  cases h1 : parseCommand toks with
  | error e => rw [h1] at h; simp at h
  | ok r =>
    obtain ⟨c, rest⟩ := r
    rw [h1] at h
    simp only at h
    cases h2 : parsePipeRest rest.length rest with
    | error e => rw [h2] at h; simp at h
    | ok r2 =>
      obtain ⟨cs, rest'⟩ := r2
      rw [h2] at h
      simp only at h
      cases rest' with
      | cons t ts => simp at h
      | nil =>
        cases cs with
        | nil =>
          simp only [Except.ok.injEq] at h
          subst h
          exact Or.inl (parseCommand_shape toks c rest h1)
        | cons c2 cs2 =>
          simp only [Except.ok.injEq] at h
          subst h
          refine Or.inr ⟨c :: c2 :: cs2, rfl, by simp, ?_⟩
          intro x hx
          rcases List.mem_cons.1 hx with hx | hx
          · subst hx
            exact parseCommand_shape toks x rest h1
          · exact parsePipeRest_shape rest.length rest (c2 :: cs2) [] h2 x hx

/-- Witness for C5 on the tokens of `a | b`. -/
theorem c5_witness :
    (∃ argv assigns reds,
      (Ast.pipeline [.command [.literal "a"] [] [], .command [.literal "b"] [] []]) =
        .command argv assigns reds) ∨
    (∃ cmds,
      (Ast.pipeline [.command [.literal "a"] [] [], .command [.literal "b"] [] []]) =
        .pipeline cmds ∧ 2 ≤ cmds.length ∧
      ∀ x ∈ cmds, ∃ argv assigns reds, x = .command argv assigns reds) :=
  c5_pipeline_never_empty [.word [.literal "a"], .pipeOp, .word [.literal "b"]]
    (.pipeline [.command [.literal "a"] [] [], .command [.literal "b"] [] []]) rfl

end Cli
